import Mathlib

/-!
Shallow embedding of the straume fantasy-console virtual machine
(source file src/vm.rs).

Modelling conventions:
* Machine bytes (`u8`) are `Nat` values; every byte stored in memory is the
  image of a Rust `as u8` cast, modelled by `wrap8` (the low 8 bits).
* `i32` stack values are `Int`; arithmetic mirrors the release-profile
  semantics of the Rust operators: `+`, `-`, `*` wrap around two's complement
  (`wrap32`), while `/` and `%` are truncated division/remainder that panic
  on a zero divisor and on the single overflowing pair (i32 minimum, -1) —
  in Rust those division checks fire in every build profile.
* A Rust panic (process abort) is modelled by the result `none`; a normal
  step returns `some` of the successor state.
* `Vec` used as a stack (push/pop at the end) is a `List` whose head is the
  stack top; `Vec::swap(len-1, len-2)` swaps the two head elements.
* The `println!` in the output-register write arm is an external side effect;
  it is made observable through the ghost field `output`, the log of bytes
  handed to the external sink.  No Rust field corresponds to it.
* `rand::thread_rng().gen_range(min..=max)` draws a nondeterministic value;
  the model threads the drawn value in as the explicit parameter `rnd` of
  `run_cycle`.  `gen_range` panics on an empty range (`min > max`), which the
  model keeps; theorems that speak about real executions constrain `rnd` to
  the inclusive range the generator can actually produce.
-/

namespace Straume

def MEMORY_SIZE : Nat := 65536

def VRAM_START : Nat := 0xF000

def VRAM_SIZE : Nat := 1000

def INPUT_REGISTER : Nat := 0xFFF0

def OUTPUT_REGISTER : Nat := 0xFFF1

def RANDOM_REGISTER : Nat := 0xFFF2

def TIMER_REGISTER : Nat := 0xFFF3

/-- The instruction set of the VM, from `enum Instruction` in src/vm.rs. -/
inductive Instruction where
  | Nop : Instruction
  | Push : Int → Instruction
  | Pop : Instruction
  | Dup : Instruction
  | Swap : Instruction
  | Add : Instruction
  | Sub : Instruction
  | Mul : Instruction
  | Div : Instruction
  | Mod : Instruction
  | And : Instruction
  | Or : Instruction
  | Xor : Instruction
  | Not : Instruction
  | Eq : Instruction
  | Ne : Instruction
  | Lt : Instruction
  | Gt : Instruction
  | Lte : Instruction
  | Gte : Instruction
  | Jump : Nat → Instruction
  | JumpIf : Nat → Instruction
  | Call : Nat → Instruction
  | Ret : Instruction
  | Load : Nat → Instruction
  | Store : Nat → Instruction
  | LoadImmediate : Nat → Int → Instruction
  | RandomNum : Int → Int → Instruction
  | Sleep : Nat → Instruction
  | ClearScreen : Instruction
  | Halt : Instruction
deriving DecidableEq

/-- The VM state, from `struct VM` in src/vm.rs.  `output` is the ghost log
of bytes emitted to the external output sink (the `println!` collaborator);
all other fields are the Rust fields. -/
structure VM where
  memory : Nat → Nat
  stack : List Int
  program : List Instruction
  pc : Nat
  call_stack : List Nat
  halted : Bool
  timer : Nat
  screen_dirty : Bool
  input_state : Nat
  output : List Nat

/-- `VM::new` -/
def VM.new : VM :=
  { memory := fun _ => 0
    stack := []
    program := []
    pc := 0
    call_stack := []
    halted := false
    timer := 0
    screen_dirty := false
    input_state := 0
    output := [] }

/-- Pointwise update of the memory array: `self.memory[a] = v`. -/
def updateMem (m : Nat → Nat) (a v : Nat) : Nat → Nat :=
  fun x => if x = a then v else m x

/-- Rust `as u8` on an `i32` value: the low 8 bits, two's complement. -/
def wrap8 (v : Int) : Nat := (v % 256).toNat

/-- Two's-complement wraparound into the `i32` range, the semantics of the
release-profile Rust arithmetic operators and of `i32::wrapping_*`. -/
def wrap32 (v : Int) : Int := (v + 2 ^ 31) % 2 ^ 32 - 2 ^ 31

/-- `VM::load_program` -/
def load_program (vm : VM) (p : List Instruction) : VM :=
  { vm with program := p, pc := 0, halted := false }

/-- `VM::load_bios`: `self.memory[..bios.len()].copy_from_slice(&bios)`.
Slicing the 65536-byte array with an end index past its length panics
(`none`); otherwise the bytes are copied to the low end of memory and the
program counter is reset. -/
def load_bios (vm : VM) (bios : List Nat) : Option VM :=
  if MEMORY_SIZE < bios.length then none
  else
    some { vm with
            memory := fun a => if a < bios.length then bios.getD a 0 else vm.memory a
            pc := 0 }

/-- `VM::read_memory`: register-aware read path.  The wildcard arm
`self.memory[addr]` panics (`none`) when `addr` is outside the array. -/
def read_memory (vm : VM) (addr : Nat) : Option Nat :=
  if addr = INPUT_REGISTER then some vm.input_state
  else if addr = RANDOM_REGISTER then some (vm.memory RANDOM_REGISTER)
  else if addr = TIMER_REGISTER then some (vm.timer % 256)
  else if addr < MEMORY_SIZE then some (vm.memory addr)
  else none

/-- `VM::write_memory`: register-aware write path.  The output-register arm
only prints (logged in `output`); a VRAM write also sets `screen_dirty`; the
wildcard arm `self.memory[addr] = value` panics (`none`) out of bounds. -/
def write_memory (vm : VM) (addr : Nat) (value : Nat) : Option VM :=
  if addr = OUTPUT_REGISTER then some { vm with output := vm.output ++ [value] }
  else if VRAM_START ≤ addr ∧ addr < VRAM_START + VRAM_SIZE then
    some { vm with memory := updateMem vm.memory addr value, screen_dirty := true }
  else if addr < MEMORY_SIZE then
    some { vm with memory := updateMem vm.memory addr value }
  else none

/-- `VM::binary_op`: with fewer than two stack elements the op is a silent
no-op; otherwise `b` is popped first, then `a`, and `op a b` is pushed.
The closure may panic (division checks), hence `Option`. -/
def binary_op (vm : VM) (f : Int → Int → Option Int) : Option VM :=
  match vm.stack with
  | b :: a :: rest =>
    match f a b with
    | some v => some { vm with stack := v :: rest }
    | none => none
  | _ => some vm

/-- `VM::compare_op`: pops `b` then `a`, pushes `1` or `0`; silent no-op on
underflow. -/
def compare_op (vm : VM) (f : Int → Int → Bool) : VM :=
  match vm.stack with
  | b :: a :: rest => { vm with stack := (if f a b then 1 else 0) :: rest }
  | _ => vm

/-- The closure of the `Div` arm, `|a, b| a / b`: Rust `i32` division panics
on a zero divisor and on the overflowing pair (minimum, -1) in every build
profile; otherwise it is truncated division. -/
def div_op (a b : Int) : Option Int :=
  if b = 0 then none
  else if a = -(2 ^ 31) ∧ b = -1 then none
  else some (a.tdiv b)

/-- The closure of the `Mod` arm, `|a, b| a % b`: Rust `i32` remainder has
the same panic conditions as division; otherwise truncated remainder. -/
def mod_op (a b : Int) : Option Int :=
  if b = 0 then none
  else if a = -(2 ^ 31) ∧ b = -1 then none
  else some (a.tmod b)

/-- The body of the `match` inside `VM::run_cycle`, one arm per
instruction.  `rnd` is the value the random generator would draw for a
`RandomNum` instruction.  The trailing `self.pc += 1` of the Rust function
is applied in every arm that does not `return` early.  A Rust panic is
`none`. -/
def exec_instruction (rnd : Int) (vm : VM) : Instruction → Option VM
  | .Nop => some { vm with pc := vm.pc + 1 }
  | .Push v => some { vm with stack := v :: vm.stack, pc := vm.pc + 1 }
  | .Pop => some { vm with stack := vm.stack.tail, pc := vm.pc + 1 }
  | .Dup =>
    match vm.stack with
    | v :: rest => some { vm with stack := v :: v :: rest, pc := vm.pc + 1 }
    | [] => some { vm with pc := vm.pc + 1 }
  | .Swap =>
    match vm.stack with
    | b :: a :: rest => some { vm with stack := a :: b :: rest, pc := vm.pc + 1 }
    | _ => some { vm with pc := vm.pc + 1 }
  | .Add =>
    (binary_op vm (fun a b => some (wrap32 (a + b)))).map
      (fun w => { w with pc := vm.pc + 1 })
  | .Sub =>
    (binary_op vm (fun a b => some (wrap32 (a - b)))).map
      (fun w => { w with pc := vm.pc + 1 })
  | .Mul =>
    (binary_op vm (fun a b => some (wrap32 (a * b)))).map
      (fun w => { w with pc := vm.pc + 1 })
  | .Div =>
    (binary_op vm div_op).map (fun w => { w with pc := vm.pc + 1 })
  | .Mod =>
    (binary_op vm mod_op).map (fun w => { w with pc := vm.pc + 1 })
  | .And =>
    (binary_op vm (fun a b => some (Int.land a b))).map
      (fun w => { w with pc := vm.pc + 1 })
  | .Or =>
    (binary_op vm (fun a b => some (Int.lor a b))).map
      (fun w => { w with pc := vm.pc + 1 })
  | .Xor =>
    (binary_op vm (fun a b => some (Int.xor a b))).map
      (fun w => { w with pc := vm.pc + 1 })
  | .Not =>
    match vm.stack with
    | v :: rest => some { vm with stack := (-(v + 1)) :: rest, pc := vm.pc + 1 }
    | [] => some { vm with pc := vm.pc + 1 }
  | .Eq => some { compare_op vm (fun a b => decide (a = b)) with pc := vm.pc + 1 }
  | .Ne => some { compare_op vm (fun a b => decide (a ≠ b)) with pc := vm.pc + 1 }
  | .Lt => some { compare_op vm (fun a b => decide (a < b)) with pc := vm.pc + 1 }
  | .Gt => some { compare_op vm (fun a b => decide (a > b)) with pc := vm.pc + 1 }
  | .Lte => some { compare_op vm (fun a b => decide (a ≤ b)) with pc := vm.pc + 1 }
  | .Gte => some { compare_op vm (fun a b => decide (a ≥ b)) with pc := vm.pc + 1 }
  | .Jump addr => some { vm with pc := addr }
  | .JumpIf addr =>
    match vm.stack with
    | v :: rest =>
      if v ≠ 0 then some { vm with stack := rest, pc := addr }
      else some { vm with stack := rest, pc := vm.pc + 1 }
    | [] => some { vm with pc := vm.pc + 1 }
  | .Call addr =>
    some { vm with call_stack := (vm.pc + 1) :: vm.call_stack, pc := addr }
  | .Ret =>
    match vm.call_stack with
    | a :: rest => some { vm with call_stack := rest, pc := a }
    | [] => some { vm with pc := vm.pc + 1 }
  | .Load addr =>
    (read_memory vm addr).map
      (fun v => { vm with stack := (v : Int) :: vm.stack, pc := vm.pc + 1 })
  | .Store addr =>
    match vm.stack with
    | v :: rest =>
      (write_memory { vm with stack := rest } addr (wrap8 v)).map
        (fun w => { w with pc := vm.pc + 1 })
    | [] => some { vm with pc := vm.pc + 1 }
  | .LoadImmediate addr v =>
    (write_memory vm addr (wrap8 v)).map (fun w => { w with pc := vm.pc + 1 })
  | .RandomNum mn mx =>
    if mx < mn then none
    else
      (write_memory vm RANDOM_REGISTER (wrap8 rnd)).map
        (fun w => { w with pc := vm.pc + 1 })
  | .Sleep ms => some { vm with timer := ms, pc := vm.pc + 1 }
  | .ClearScreen =>
    some { vm with
            memory := fun a =>
              if VRAM_START ≤ a ∧ a < VRAM_START + VRAM_SIZE then 0 else vm.memory a
            pc := vm.pc + 1 }
  | .Halt => some { vm with halted := true }

/-- `VM::run_cycle`, one fetch-decode-execute step: a no-op when halted or
when the program counter is past the end of the program, otherwise the
instruction at the program counter is executed by `exec_instruction`. -/
def run_cycle (rnd : Int) (vm : VM) : Option VM :=
  if vm.halted = true ∨ vm.program.length ≤ vm.pc then some vm
  else exec_instruction rnd vm (vm.program.getD vm.pc Instruction.Nop)

/-- `VM::vblank_interrupt`: decrement a positive timer by one, mirror the
input state into the input register, set the VBlank flag at 0xFFF4, set the
safe-to-draw flag at 0xFFF5 only when the screen was dirty, then clear
`screen_dirty`. -/
def vblank_interrupt (vm : VM) : VM :=
  let t := if 0 < vm.timer then vm.timer - 1 else vm.timer
  let m1 := updateMem vm.memory INPUT_REGISTER vm.input_state
  let m2 := updateMem m1 0xFFF4 1
  let m3 := if vm.screen_dirty = true then updateMem m2 0xFFF5 1 else m2
  { vm with timer := t, memory := m3, screen_dirty := false }

/-- `VM::update_timer`: saturating subtraction of the elapsed milliseconds
(on `Nat` plain subtraction is already saturating). -/
def update_timer (vm : VM) (delta_ms : Nat) : VM :=
  if 0 < vm.timer then { vm with timer := vm.timer - delta_ms } else vm

/-- One permitted step of the machine: some random draw makes `run_cycle`
produce the successor state. -/
def StepR (a b : VM) : Prop := ∃ r, run_cycle r a = some b

/-- Claim C7: once the halted flag is true, a further `run_cycle` returns the
very same state — program counter, operand stack, call stack and all memory
bytes included — and in particular never panics. -/
theorem halted_run_cycle_noop (vm : VM) (r : Int) (h : vm.halted = true) :
    run_cycle r vm = some vm := by
  unfold run_cycle
  rw [if_pos (Or.inl h)]

/-- Witness for C7 at a concrete halted state. -/
theorem halted_run_cycle_noop_witness :
    run_cycle 0
        { VM.new with
            halted := true
            stack := [5]
            program := [Instruction.Push 1] }
      = some
        { VM.new with
            halted := true
            stack := [5]
            program := [Instruction.Push 1] } :=
  halted_run_cycle_noop _ 0 rfl

/-- Claim C8: the interrupt hook sets memory byte 0xFFF4 to 1, sets byte
0xFFF5 to 1 exactly when the screen-dirty flag was true on entry (leaving it
unchanged otherwise), decrements a positive timer by one (a zero timer stays
zero — `Nat` subtraction), and leaves the screen-dirty flag false. -/
theorem vblank_interrupt_effects (vm : VM) :
    (vblank_interrupt vm).memory 0xFFF4 = 1 ∧
    (vblank_interrupt vm).memory 0xFFF5
      = (if vm.screen_dirty = true then 1 else vm.memory 0xFFF5) ∧
    (vblank_interrupt vm).timer = vm.timer - 1 ∧
    (vblank_interrupt vm).screen_dirty = false := by
  unfold vblank_interrupt
  refine ⟨?_, ?_, ?_, rfl⟩
  · by_cases hd : vm.screen_dirty = true <;> simp [hd, updateMem]
  · by_cases hd : vm.screen_dirty = true <;>
      simp [hd, updateMem, INPUT_REGISTER]
  · by_cases ht : 0 < vm.timer
    · simp [ht]
    · simp [ht]
      omega

/-- Claim C10: a write to the output register changes no VM state at all —
memory, operand stack, call stack, program counter, timer, screen-dirty and
halted flags are untouched; the byte goes only to the external output sink
(the ghost log), so reading address 0xFFF1 afterwards still yields the
memory byte that was there before the write. -/
theorem output_write_state_frame (vm : VM) (v : Nat) :
    ∃ w, write_memory vm OUTPUT_REGISTER v = some w ∧
      w.memory = vm.memory ∧
      w.stack = vm.stack ∧
      w.call_stack = vm.call_stack ∧
      w.pc = vm.pc ∧
      w.timer = vm.timer ∧
      w.screen_dirty = vm.screen_dirty ∧
      w.halted = vm.halted ∧
      w.output = vm.output ++ [v] ∧
      read_memory w OUTPUT_REGISTER = some (vm.memory OUTPUT_REGISTER) := by
  refine ⟨{ vm with output := vm.output ++ [v] }, ?_, rfl, rfl, rfl, rfl, rfl, rfl, rfl, rfl, ?_⟩
  · unfold write_memory
    rw [if_pos rfl]
  · unfold read_memory
    rw [if_neg (by decide), if_neg (by decide), if_neg (by decide),
      if_pos (by decide)]

/-- Claim C1 (code bug): with two elements on the stack and a zero divisor
on top, `Div` and `Mod` do not produce a controlled, diagnosable error
state — the `a / b` and `a % b` closures panic, aborting the process
(modelled by `none`).  The state below has stack `[0, 1]` (top `b = 0`,
beneath it `a = 1`), i.e. at least two stack elements. -/
theorem div_mod_by_zero_panic_model :
    ({ VM.new with program := [Instruction.Div], stack := [0, 1] } : VM).stack.length = 2 ∧
    run_cycle 0 { VM.new with program := [Instruction.Div], stack := [0, 1] } = none ∧
    run_cycle 0 { VM.new with program := [Instruction.Mod], stack := [0, 1] } = none := by
  refine ⟨rfl, rfl, rfl⟩

/-- Claim C2 (code bug): for an address outside the 65536-byte memory the
wildcard arms of `read_memory` and `write_memory` index the array out of
bounds, which panics (modelled by `none`): a `Load`, `Store` or
`LoadImmediate` at such an address aborts the process instead of reporting
a controlled failure. -/
theorem oob_memory_access_panic_model :
    read_memory VM.new MEMORY_SIZE = none ∧
    write_memory VM.new 70000 7 = none ∧
    run_cycle 0 { VM.new with program := [Instruction.Load 70000] } = none ∧
    run_cycle 0 { VM.new with program := [Instruction.Store 70000], stack := [1] } = none ∧
    run_cycle 0 { VM.new with program := [Instruction.LoadImmediate 70000 1] } = none := by
  refine ⟨rfl, rfl, rfl, rfl, rfl⟩

/-- Claim C5 (code bug): a BIOS one byte longer than memory makes
`load_bios` slice the 65536-byte array with end index 65537, which panics
(modelled by `none`) instead of returning an explicit error to the caller. -/
theorem oversized_bios_panic_model :
    (List.replicate (MEMORY_SIZE + 1) 0).length = MEMORY_SIZE + 1 ∧
    load_bios VM.new (List.replicate (MEMORY_SIZE + 1) 0) = none := by
  refine ⟨List.length_replicate _ _, ?_⟩
  unfold load_bios
  rw [if_pos]
  rw [List.length_replicate]
  exact Nat.lt_succ_self _

/-- Claim C3, counterexample: for `RandomNum(256, 256)` the generator can
only draw 256, yet the register receives the low byte `wrap8 256 = 0`, so
the value read back is 0, not a value in the inclusive range [256, 256]. -/
theorem random_register_truncation_cex :
    ∃ w, run_cycle 256 { VM.new with program := [Instruction.RandomNum 256 256] }
        = some w ∧
      read_memory w RANDOM_REGISTER = some 0 ∧
      ¬ ((256 : Int) ≤ (0 : Int) ∧ (0 : Int) ≤ (256 : Int)) := by
  refine ⟨_, rfl, rfl, by decide⟩

/-- Claim C3, amended: when `0 ≤ min ≤ max ≤ 255`, executing
`RandomNum(min, max)` with a drawn value `v` in the inclusive range stores
that value in the random register, and reading the register immediately
afterwards yields a value in `[min, max]`.  (For ranges outside 0..255 only
the low byte of the drawn value is stored.) -/
theorem random_num_in_range_bytes (vm : VM) (mn mx v : Int)
    (h0 : 0 ≤ mn) (h1 : mn ≤ v) (h2 : v ≤ mx) (h3 : mx ≤ 255)
    (hh : vm.halted = false) (hp : vm.pc < vm.program.length)
    (hi : vm.program.getD vm.pc Instruction.Nop = Instruction.RandomNum mn mx) :
    ∃ w, run_cycle v vm = some w ∧
      ∃ u, read_memory w RANDOM_REGISTER = some u ∧
        mn ≤ (u : Int) ∧ (u : Int) ≤ mx := by
  have hrange : ¬ mx < mn := not_lt.mpr (h1.trans h2)
  have hv8 : ((wrap8 v : Nat) : Int) = v := by
    unfold wrap8
    rw [Int.emod_eq_of_lt (h0.trans h1) (by omega)]
    exact Int.toNat_of_nonneg (h0.trans h1)
  unfold run_cycle
  rw [if_neg (by rw [hh]; simp; omega), hi]
  simp only [exec_instruction]
  rw [if_neg hrange]
  unfold write_memory
  rw [if_neg (by decide), if_neg (by decide), if_pos (by decide)]
  refine ⟨_, rfl, wrap8 v, ?_, ?_, ?_⟩
  · unfold read_memory
    rw [if_neg (by decide), if_pos rfl]
    show some (updateMem vm.memory RANDOM_REGISTER (wrap8 v) RANDOM_REGISTER) = _
    unfold updateMem
    rw [if_pos rfl]
  · rw [hv8]; exact h1
  · rw [hv8]; exact h2

/-- Witness for the amended C3 at `RandomNum(5, 10)` with drawn value 7. -/
theorem random_num_in_range_bytes_witness :
    ∃ w, run_cycle 7 { VM.new with program := [Instruction.RandomNum 5 10] }
        = some w ∧
      ∃ u, read_memory w RANDOM_REGISTER = some u ∧
        (5 : Int) ≤ (u : Int) ∧ (u : Int) ≤ 10 :=
  random_num_in_range_bytes _ 5 10 7 (by decide) (by decide) (by decide)
    (by decide) rfl (by decide) rfl

/-- Claim C4, counterexample: `ClearScreen` writes the VRAM bytes directly,
bypassing `write_memory`, so its 1000 byte writes do not set the
screen-dirty flag: here the VRAM byte at 0xF000 visibly changes from 7 to 0
while `screen_dirty` stays false. -/
theorem clear_screen_leaves_dirty_false_cex :
    ∃ w, run_cycle 0
        { VM.new with
            program := [Instruction.ClearScreen]
            memory := updateMem VM.new.memory VRAM_START 7 }
        = some w ∧
      w.memory VRAM_START = 0 ∧ w.screen_dirty = false := by
  refine ⟨_, rfl, ?_, rfl⟩
  show (if VRAM_START ≤ VRAM_START ∧ VRAM_START < VRAM_START + VRAM_SIZE
        then 0 else updateMem VM.new.memory VRAM_START 7 VRAM_START) = 0
  rw [if_pos (by decide)]

/-- Claim C4, amended: every byte write that goes through the register-aware
write path (`Store`, `LoadImmediate`, `RandomNum`) at a VRAM address sets
the screen-dirty flag; the `ClearScreen` instruction, however, zeroes the
VRAM region by direct array writes that bypass that path, leaving the
screen-dirty flag unchanged. -/
theorem vram_write_sets_dirty :
    (∀ (vm : VM) (addr v : Nat), VRAM_START ≤ addr → addr < VRAM_START + VRAM_SIZE →
      ∃ w, write_memory vm addr v = some w ∧ w.screen_dirty = true) ∧
    (∀ (r : Int) (vm : VM), vm.halted = false → vm.pc < vm.program.length →
      vm.program.getD vm.pc Instruction.Nop = Instruction.ClearScreen →
      ∃ w, run_cycle r vm = some w ∧ w.screen_dirty = vm.screen_dirty ∧
        ∀ a, VRAM_START ≤ a → a < VRAM_START + VRAM_SIZE → w.memory a = 0) := by
  constructor
  · intro vm addr v hlo hhi
    unfold write_memory
    rw [if_neg (by unfold OUTPUT_REGISTER VRAM_START VRAM_SIZE at *; omega),
      if_pos ⟨hlo, hhi⟩]
    exact ⟨_, rfl, rfl⟩
  · intro r vm hh hp hi
    unfold run_cycle
    rw [if_neg (by rw [hh]; simp; omega), hi]
    simp only [exec_instruction]
    refine ⟨_, rfl, rfl, ?_⟩
    intro a hlo hhi
    show (if VRAM_START ≤ a ∧ a < VRAM_START + VRAM_SIZE then 0 else vm.memory a) = 0
    rw [if_pos ⟨hlo, hhi⟩]

/-- Witness for the amended C4: a write to VRAM address 0xF000 through the
write path sets the screen-dirty flag. -/
theorem vram_write_sets_dirty_witness :
    ∃ w, write_memory VM.new 0xF000 7 = some w ∧ w.screen_dirty = true :=
  vram_write_sets_dirty.1 VM.new 0xF000 7 (by decide) (by decide)

/-- Dispatch form of `run_cycle` when the machine is running and the program
counter is in bounds. -/
theorem run_cycle_exec (rnd : Int) (vm : VM) (hh : vm.halted = false)
    (hp : vm.pc < vm.program.length) :
    run_cycle rnd vm = exec_instruction rnd vm (vm.program.getD vm.pc Instruction.Nop) := by
  unfold run_cycle
  rw [if_neg (by rw [hh]; simp; omega)]

/-- `binary_op` on a stack with at least two elements, successful closure. -/
theorem binary_op_cons_some (vm : VM) (f : Int → Int → Option Int) (a b : Int)
    (rest : List Int) (v : Int) (hs : vm.stack = b :: a :: rest) (hf : f a b = some v) :
    binary_op vm f = some { vm with stack := v :: rest } := by
  unfold binary_op
  simp only [hs]
  rw [hf]

/-- `binary_op` on a stack with at least two elements, panicking closure. -/
theorem binary_op_cons_none (vm : VM) (f : Int → Int → Option Int) (a b : Int)
    (rest : List Int) (hs : vm.stack = b :: a :: rest) (hf : f a b = none) :
    binary_op vm f = none := by
  unfold binary_op
  simp only [hs]
  rw [hf]

/-- A value already inside the `i32` range is a fixed point of the
two's-complement wraparound. -/
theorem wrap32_eq_self (x : Int) (h1 : -(2 ^ 31) ≤ x) (h2 : x < 2 ^ 31) :
    wrap32 x = x := by
  unfold wrap32
  rw [Int.emod_eq_of_lt (by omega) (by omega)]
  omega

/-- Absolute value of the truncated remainder. -/
theorem natAbs_tmod_eq (a b : Int) : (a.tmod b).natAbs = a.natAbs % b.natAbs := by
  cases a <;> cases b <;>
    simp only [Int.tmod, Int.natAbs_neg, Int.natAbs_ofNat, Int.natAbs_negSucc] <;> rfl

/-- Truncated division of in-range `i32` operands stays in range, except for
the excluded overflowing pair. -/
theorem tdiv_i32_range (a b : Int) (ha1 : -(2 ^ 31) ≤ a) (ha2 : a < 2 ^ 31)
    (hb0 : b ≠ 0) (hmin : ¬(a = -(2 ^ 31) ∧ b = -1)) :
    -(2 ^ 31) ≤ a.tdiv b ∧ a.tdiv b < 2 ^ 31 := by
  have hq := Int.natAbs_tdiv a b
  have hbpos : 0 < b.natAbs := Int.natAbs_pos.mpr hb0
  rcases Nat.lt_or_ge b.natAbs 2 with hb1 | hb2
  · have hb' : b = 1 ∨ b = -1 := by omega
    rcases hb' with rfl | rfl
    · rw [Int.tdiv_one]
      exact ⟨ha1, ha2⟩
    · have ha' : a ≠ -(2 ^ 31) := fun h => hmin ⟨h, rfl⟩
      have hneg : a.tdiv (-1) = -a := by
        have := Int.tdiv_neg a 1
        rw [Int.tdiv_one] at this
        exact this
      rw [hneg]
      omega
  · have h1 : a.natAbs / b.natAbs ≤ a.natAbs / 2 :=
      Nat.div_le_div_left hb2 (by omega)
    have h2 : a.natAbs / 2 ≤ 2 ^ 31 / 2 := Nat.div_le_div_right (by omega)
    have h4 : (a.tdiv b).natAbs ≤ 2 ^ 30 := by
      rw [hq]
      calc a.natAbs / b.natAbs ≤ a.natAbs / 2 := h1
        _ ≤ 2 ^ 31 / 2 := h2
        _ = 2 ^ 30 := by norm_num
    omega

/-- Truncated remainder by an in-range nonzero `i32` divisor stays in range. -/
theorem tmod_i32_range (a b : Int) (hb0 : b ≠ 0) (hb1 : -(2 ^ 31) ≤ b)
    (hb2 : b < 2 ^ 31) :
    -(2 ^ 31) ≤ a.tmod b ∧ a.tmod b < 2 ^ 31 := by
  have h := natAbs_tmod_eq a b
  have hbpos : 0 < b.natAbs := Int.natAbs_pos.mpr hb0
  have hlt : a.natAbs % b.natAbs < b.natAbs := Nat.mod_lt _ hbpos
  omega

/-- Claim C6, counterexample: both operands are valid `i32` values and the
wrapping semantics of division is defined at them (it yields the `i32`
minimum), yet executing `Div` on the pair (minimum, -1) panics — Rust checks
this division overflow in every build profile — instead of pushing the
wrapped result. -/
theorem div_min_neg_one_panic_cex :
    ({ VM.new with program := [Instruction.Div], stack := [-1, -(2 ^ 31)] } : VM).stack.length = 2 ∧
    wrap32 (Int.tdiv (-(2 ^ 31)) (-1)) = -(2 ^ 31) ∧
    run_cycle 0 { VM.new with program := [Instruction.Div], stack := [-1, -(2 ^ 31)] } = none := by
  refine ⟨rfl, by decide, rfl⟩

/-- Claim C6, amended: for in-range `i32` operands `a` (pushed first) and
`b` (pushed second), `Add`, `Sub` and `Mul` push the two's-complement
wrapping result (release-profile semantics); `Div` and `Mod` push the
wrapping result of truncated division/remainder whenever `b ≠ 0` and
`(a, b)` is not the overflowing pair (i32 minimum, -1), and panic in those
two excluded cases. -/
theorem binary_arith_wrapping (vm : VM) (a b : Int) (rest : List Int) (r : Int)
    (hh : vm.halted = false) (hp : vm.pc < vm.program.length)
    (hs : vm.stack = b :: a :: rest)
    (ha1 : -(2 ^ 31) ≤ a) (ha2 : a < 2 ^ 31) (hb1 : -(2 ^ 31) ≤ b) (hb2 : b < 2 ^ 31) :
    (vm.program.getD vm.pc Instruction.Nop = Instruction.Add →
      run_cycle r vm = some { vm with stack := wrap32 (a + b) :: rest, pc := vm.pc + 1 }) ∧
    (vm.program.getD vm.pc Instruction.Nop = Instruction.Sub →
      run_cycle r vm = some { vm with stack := wrap32 (a - b) :: rest, pc := vm.pc + 1 }) ∧
    (vm.program.getD vm.pc Instruction.Nop = Instruction.Mul →
      run_cycle r vm = some { vm with stack := wrap32 (a * b) :: rest, pc := vm.pc + 1 }) ∧
    (vm.program.getD vm.pc Instruction.Nop = Instruction.Div →
      ((b = 0 ∨ (a = -(2 ^ 31) ∧ b = -1)) → run_cycle r vm = none) ∧
      (b ≠ 0 → ¬(a = -(2 ^ 31) ∧ b = -1) →
        run_cycle r vm = some { vm with stack := wrap32 (a.tdiv b) :: rest, pc := vm.pc + 1 })) ∧
    (vm.program.getD vm.pc Instruction.Nop = Instruction.Mod →
      ((b = 0 ∨ (a = -(2 ^ 31) ∧ b = -1)) → run_cycle r vm = none) ∧
      (b ≠ 0 → ¬(a = -(2 ^ 31) ∧ b = -1) →
        run_cycle r vm = some { vm with stack := wrap32 (a.tmod b) :: rest, pc := vm.pc + 1 })) := by
  have hrc := run_cycle_exec r vm hh hp
  refine ⟨?_, ?_, ?_, ?_, ?_⟩
  · intro hi
    rw [hrc, hi]
    simp only [exec_instruction]
    rw [binary_op_cons_some vm _ a b rest _ hs rfl]
    rfl
  · intro hi
    rw [hrc, hi]
    simp only [exec_instruction]
    rw [binary_op_cons_some vm _ a b rest _ hs rfl]
    rfl
  · intro hi
    rw [hrc, hi]
    simp only [exec_instruction]
    rw [binary_op_cons_some vm _ a b rest _ hs rfl]
    rfl
  · intro hi
    constructor
    · intro hfault
      rw [hrc, hi]
      simp only [exec_instruction]
      rw [binary_op_cons_none vm div_op a b rest hs ?hf]
      case hf =>
        unfold div_op
        rcases hfault with h0 | ⟨hA, hB⟩
        · rw [if_pos h0]
        · rw [if_neg (by rw [hB]; decide), if_pos ⟨hA, hB⟩]
      rfl
    · intro hb0 hmin
      rw [hrc, hi]
      simp only [exec_instruction]
      rw [binary_op_cons_some vm div_op a b rest (a.tdiv b) hs ?hf]
      case hf =>
        unfold div_op
        rw [if_neg hb0, if_neg hmin]
      have hr := tdiv_i32_range a b ha1 ha2 hb0 hmin
      rw [wrap32_eq_self _ hr.1 hr.2]
      rfl
  · intro hi
    constructor
    · intro hfault
      rw [hrc, hi]
      simp only [exec_instruction]
      rw [binary_op_cons_none vm mod_op a b rest hs ?hf]
      case hf =>
        unfold mod_op
        rcases hfault with h0 | ⟨hA, hB⟩
        · rw [if_pos h0]
        · rw [if_neg (by rw [hB]; decide), if_pos ⟨hA, hB⟩]
      rfl
    · intro hb0 hmin
      rw [hrc, hi]
      simp only [exec_instruction]
      rw [binary_op_cons_some vm mod_op a b rest (a.tmod b) hs ?hf]
      case hf =>
        unfold mod_op
        rw [if_neg hb0, if_neg hmin]
      have hr := tmod_i32_range a b hb0 hb1 hb2
      rw [wrap32_eq_self _ hr.1 hr.2]
      rfl

/-- Witness for the amended C6: `Add` on operands 4 and 3 pushes the wrapped
sum. -/
theorem binary_arith_wrapping_witness :
    run_cycle 0 { VM.new with program := [Instruction.Add], stack := [3, 4] }
      = some
        { VM.new with
            program := [Instruction.Add]
            stack := [wrap32 (4 + 3)]
            pc := 0 + 1 } :=
  (binary_arith_wrapping
      { VM.new with program := [Instruction.Add], stack := [3, 4] }
      4 3 [] 0 rfl (by decide) rfl (by decide) (by decide) (by decide) (by decide)).1 rfl

/-- A successful `write_memory` never touches the call stack or the program
counter. -/
theorem write_memory_cs (vm w : VM) (addr v : Nat)
    (h : write_memory vm addr v = some w) : w.call_stack = vm.call_stack := by
  unfold write_memory at h
  split at h
  · cases h; rfl
  · split at h
    · cases h; rfl
    · split at h
      · cases h; rfl
      · exact Option.noConfusion h

/-- A successful `binary_op` never touches the call stack. -/
theorem binary_op_cs (vm w : VM) (f : Int → Int → Option Int)
    (h : binary_op vm f = some w) : w.call_stack = vm.call_stack := by
  unfold binary_op at h
  split at h
  · split at h
    · cases h; rfl
    · exact Option.noConfusion h
  · cases h; rfl

/-- `compare_op` never touches the call stack. -/
theorem compare_op_cs (vm : VM) (f : Int → Int → Bool) :
    (compare_op vm f).call_stack = vm.call_stack := by
  unfold compare_op
  split <;> rfl

/-- Any single successfully executed instruction changes the call stack in
one of exactly three ways: it leaves it alone, pushes the return address
`pc + 1` on top (a `Call`), or pops the top element (a `Ret`). -/
theorem exec_call_stack_shape (r : Int) (vm w : VM) (i : Instruction)
    (h : exec_instruction r vm i = some w) :
    w.call_stack = vm.call_stack ∨ w.call_stack = (vm.pc + 1) :: vm.call_stack ∨
    ∃ x, vm.call_stack = x :: w.call_stack := by
  cases i <;> simp only [exec_instruction] at h
  case Nop => cases h; exact Or.inl rfl
  case Push v => cases h; exact Or.inl rfl
  case Pop => cases h; exact Or.inl rfl
  case Dup => split at h <;> (cases h; exact Or.inl rfl)
  case Swap => split at h <;> (cases h; exact Or.inl rfl)
  case Add =>
    rcases Option.map_eq_some'.mp h with ⟨u, hu, hw⟩
    subst hw
    exact Or.inl (binary_op_cs vm u _ hu)
  case Sub =>
    rcases Option.map_eq_some'.mp h with ⟨u, hu, hw⟩
    subst hw
    exact Or.inl (binary_op_cs vm u _ hu)
  case Mul =>
    rcases Option.map_eq_some'.mp h with ⟨u, hu, hw⟩
    subst hw
    exact Or.inl (binary_op_cs vm u _ hu)
  case Div =>
    rcases Option.map_eq_some'.mp h with ⟨u, hu, hw⟩
    subst hw
    exact Or.inl (binary_op_cs vm u _ hu)
  case Mod =>
    rcases Option.map_eq_some'.mp h with ⟨u, hu, hw⟩
    subst hw
    exact Or.inl (binary_op_cs vm u _ hu)
  case And =>
    rcases Option.map_eq_some'.mp h with ⟨u, hu, hw⟩
    subst hw
    exact Or.inl (binary_op_cs vm u _ hu)
  case Or =>
    rcases Option.map_eq_some'.mp h with ⟨u, hu, hw⟩
    subst hw
    exact Or.inl (binary_op_cs vm u _ hu)
  case Xor =>
    rcases Option.map_eq_some'.mp h with ⟨u, hu, hw⟩
    subst hw
    exact Or.inl (binary_op_cs vm u _ hu)
  case Not => split at h <;> (cases h; exact Or.inl rfl)
  case Eq => cases h; exact Or.inl (compare_op_cs vm _)
  case Ne => cases h; exact Or.inl (compare_op_cs vm _)
  case Lt => cases h; exact Or.inl (compare_op_cs vm _)
  case Gt => cases h; exact Or.inl (compare_op_cs vm _)
  case Lte => cases h; exact Or.inl (compare_op_cs vm _)
  case Gte => cases h; exact Or.inl (compare_op_cs vm _)
  case Jump addr => cases h; exact Or.inl rfl
  case JumpIf addr =>
    split at h
    · split at h <;> (cases h; exact Or.inl rfl)
    · cases h; exact Or.inl rfl
  case Call addr => cases h; exact Or.inr (Or.inl rfl)
  case Ret =>
    cases hcs : vm.call_stack with
    | nil =>
      simp only [hcs] at h
      cases h
      exact Or.inl rfl
    | cons x cs =>
      simp only [hcs] at h
      cases h
      exact Or.inr (Or.inr ⟨x, rfl⟩)
  case Load addr =>
    rcases Option.map_eq_some'.mp h with ⟨u, hu, hw⟩
    subst hw
    exact Or.inl rfl
  case Store addr =>
    cases hs : vm.stack with
    | nil =>
      simp only [hs] at h
      cases h
      exact Or.inl rfl
    | cons v rest =>
      simp only [hs] at h
      rcases Option.map_eq_some'.mp h with ⟨u, hu, hw⟩
      subst hw
      exact Or.inl (write_memory_cs { vm with stack := rest } u addr (wrap8 v) hu)
  case LoadImmediate addr v =>
    rcases Option.map_eq_some'.mp h with ⟨u, hu, hw⟩
    subst hw
    exact Or.inl (write_memory_cs vm u _ _ hu)
  case RandomNum mn mx =>
    split at h
    · exact Option.noConfusion h
    · rcases Option.map_eq_some'.mp h with ⟨u, hu, hw⟩
      subst hw
      exact Or.inl (write_memory_cs vm u _ _ hu)
  case Sleep ms => cases h; exact Or.inl rfl
  case ClearScreen => cases h; exact Or.inl rfl
  case Halt => cases h; exact Or.inl rfl

/-- The call-stack shape property lifted to `run_cycle`. -/
theorem run_cycle_call_stack_shape (r : Int) (vm w : VM)
    (h : run_cycle r vm = some w) :
    w.call_stack = vm.call_stack ∨ w.call_stack = (vm.pc + 1) :: vm.call_stack ∨
    ∃ x, vm.call_stack = x :: w.call_stack := by
  unfold run_cycle at h
  split at h
  · cases h; exact Or.inl rfl
  · exact exec_call_stack_shape r vm w _ h

/-- One step preserves an untouched lower segment of the call stack: if the
suffix `tl` sits at the bottom before the step and the call stack stays at
least `tl` deep after it, the suffix is still at the bottom. -/
theorem call_stack_tail_stable (a b : VM) (tl : List Nat)
    (hstep : StepR a b) (ha : ∃ fr, a.call_stack = fr ++ tl)
    (hb : tl.length ≤ b.call_stack.length) :
    ∃ fr, b.call_stack = fr ++ tl := by
  rcases hstep with ⟨r, hr⟩
  rcases ha with ⟨fr, hfr⟩
  rcases run_cycle_call_stack_shape r a b hr with h1 | h2 | ⟨x, h3⟩
  · exact ⟨fr, h1.trans hfr⟩
  · exact ⟨(a.pc + 1) :: fr, by rw [h2, hfr]; rfl⟩
  · cases fr with
    | nil =>
      exfalso
      have htl : tl = x :: b.call_stack := by
        have := hfr.symm.trans h3
        simpa using this
      have := congrArg List.length htl
      simp at this
      omega
    | cons f fs =>
      have hx : f :: (fs ++ tl) = x :: b.call_stack := by
        rw [← List.cons_append, ← hfr]
        exact h3
      exact ⟨fs, (List.cons.injEq _ _ _ _ ▸ hx).2.symm⟩

/-- The untouched lower segment of the call stack survives any number of
steps during which the call stack stays at least that deep. -/
theorem call_stack_tail_stable_many (s : Nat → VM) (tl : List Nat) (k : Nat)
    (hstep : ∀ i, i < k → StepR (s i) (s (i + 1)))
    (hdepth : ∀ i, i ≤ k → tl.length ≤ (s i).call_stack.length)
    (h0 : ∃ fr, (s 0).call_stack = fr ++ tl) :
    ∃ fr, (s k).call_stack = fr ++ tl := by
  induction k with
  | zero => exact h0
  | succ n ih =>
    exact call_stack_tail_stable (s n) (s (n + 1)) tl
      (hstep n (Nat.lt_succ_self n))
      (ih (fun i hi => hstep i (hi.trans (Nat.lt_succ_self n)))
          (fun i hi => hdepth i (hi.trans (Nat.le_succ n))))
      (hdepth (n + 1) le_rfl)

/-- Claim C9: when a `Call addr` executed at program counter `p` is followed
by a matching `Ret` — the trace `s 0, …, s k` after the call keeps the call
stack strictly deeper than it was before the call (no intervening unmatched
`Ret` pops the frame, every intervening `Call` is matched), and at `s k` a
`Ret` executes with the call stack exactly one frame deeper than before the
call — then that `Ret` sets the program counter to `p + 1`, the instruction
immediately following the original `Call`. -/
theorem call_ret_resumes (vm final : VM) (addr : Nat) (r q : Int)
    (s : Nat → VM) (k : Nat)
    (hh : vm.halted = false) (hp : vm.pc < vm.program.length)
    (hi : vm.program.getD vm.pc Instruction.Nop = Instruction.Call addr)
    (h0 : run_cycle r vm = some (s 0))
    (hstep : ∀ i, i < k → StepR (s i) (s (i + 1)))
    (hdepth : ∀ i, i ≤ k → vm.call_stack.length < (s i).call_stack.length)
    (hklen : (s k).call_stack.length = vm.call_stack.length + 1)
    (hkh : (s k).halted = false) (hkp : (s k).pc < (s k).program.length)
    (hki : (s k).program.getD (s k).pc Instruction.Nop = Instruction.Ret)
    (hq : run_cycle q (s k) = some final) :
    final.pc = vm.pc + 1 := by
  rw [run_cycle_exec r vm hh hp, hi] at h0
  simp only [exec_instruction] at h0
  have hX := Option.some.inj h0
  have hs0 : (s 0).call_stack = (vm.pc + 1) :: vm.call_stack := by
    rw [← hX]
  have hstable := call_stack_tail_stable_many s ((vm.pc + 1) :: vm.call_stack) k
    hstep
    (fun i hi_le => by
      have := hdepth i hi_le
      simp only [List.length_cons]
      omega)
    ⟨[], by rw [hs0]; rfl⟩
  rcases hstable with ⟨fr, hfr⟩
  have hfrnil : fr = [] := by
    have hlen := congrArg List.length hfr
    simp only [List.length_append, List.length_cons, hklen] at hlen
    exact List.eq_nil_of_length_eq_zero (by omega)
  have hcs : (s k).call_stack = (vm.pc + 1) :: vm.call_stack := by
    rw [hfr, hfrnil]
    rfl
  rw [run_cycle_exec q (s k) hkh hkp, hki] at hq
  simp only [exec_instruction, hcs] at hq
  have hF := Option.some.inj hq
  rw [← hF]

/-- Witness for C9: the spec's Scenario C program
`[Call 2, Halt, LoadImmediate 0x200 1, Ret]`.  The call at program counter 0
jumps to address 2; one intervening step executes the `LoadImmediate`; the
`Ret` at address 3 then resumes at program counter 1 = 0 + 1. -/
theorem call_ret_resumes_witness :
    (({ VM.new with
          program := [Instruction.Call 2, Instruction.Halt,
            Instruction.LoadImmediate 0x200 1, Instruction.Ret]
          memory := updateMem VM.new.memory 0x200 (wrap8 1)
          call_stack := []
          pc := 1 } : VM).pc = 0 + 1) :=
  call_ret_resumes
    { VM.new with
        program := [Instruction.Call 2, Instruction.Halt,
          Instruction.LoadImmediate 0x200 1, Instruction.Ret] }
    { VM.new with
        program := [Instruction.Call 2, Instruction.Halt,
          Instruction.LoadImmediate 0x200 1, Instruction.Ret]
        memory := updateMem VM.new.memory 0x200 (wrap8 1)
        call_stack := []
        pc := 1 }
    2 0 0
    (fun i =>
      if i = 0 then
        { VM.new with
            program := [Instruction.Call 2, Instruction.Halt,
              Instruction.LoadImmediate 0x200 1, Instruction.Ret]
            call_stack := [1]
            pc := 2 }
      else
        { VM.new with
            program := [Instruction.Call 2, Instruction.Halt,
              Instruction.LoadImmediate 0x200 1, Instruction.Ret]
            memory := updateMem VM.new.memory 0x200 (wrap8 1)
            call_stack := [1]
            pc := 3 })
    1
    rfl (by decide) rfl rfl
    (fun i hi => by
      have hi0 : i = 0 := by omega
      subst hi0
      exact ⟨0, rfl⟩)
    (fun i hi => by
      rcases Nat.le_one_iff_eq_zero_or_eq_one.mp hi with h | h <;> subst h <;> decide)
    rfl rfl (by decide) rfl rfl

end Straume
